import Mathlib

/-!
Verification of the wx_projector Bible core against its design spec.

Shallow embedding of the core modules:
  * `src/data/bible_repository.py`  (BibleRepository)
  * `src/utils/parsers.py`          (parse_verse_reference, get_book_id)
  * `src/core/bible_engine.py`      (BibleEngine)
  * `src/core/content_renderer.py`  (render_bible_verses, render_verses_html_only)

Modelling conventions:
  * The on-disk corpus is abstracted as a `Store` mapping a
    (version, book_id, chapter) key to an optional `ChapterFile`.  The path
    construction in `load_chapter` (books/{version}/vol{book_id:02d}/
    chap{chapter:03d}.txt) is injective on the used key domain, so keying the
    store by the tuple is faithful.  A `ChapterFile` records the decode result
    under the declared encoding (`primary`) and under the fallback encoding
    (`fallback`); `none` means that decode raises UnicodeDecodeError.  Line
    contents are modelled after the rstrip of the trailing newline characters.
  * The in-memory chapter cache (keyed by the string
    f"{version}_{book_id}_{chapter}", which is injective because int reprs
    contain no underscore) is semantically transparent for a fixed store, so
    `load_chapter` is modelled as a pure function of the store.
  * Python dicts preserve insertion order and are modelled as association
    lists; `dict` lookup is `List.lookup` (first match).
  * Python ints are `Int`; list indices and lengths are `Nat`.
-/

/-- ChapterFile models one chapter file on disk: the verse lines obtained by
decoding it under the version's declared encoding (`primary`), and under the
fallback encoding (`fallback`); `none` models a UnicodeDecodeError. -/
structure ChapterFile where
  primary : Option (List String)
  fallback : Option (List String)
deriving DecidableEq

/-- Store abstracts the file system: `none` models a missing chapter file
(FileNotFoundError on open). -/
def Store : Type := String → Int → Int → Option ChapterFile

/-- updateStore overwrites the store at one (version, book_id, chapter) key;
used to state non-interference facts about unfetched verses. -/
def updateStore (s : Store) (v : String) (b c : Int) (f : Option ChapterFile) : Store :=
  fun v2 b2 c2 => if v2 = v ∧ b2 = b ∧ c2 = c then f else s v2 b2 c2

/-- load_chapter embeds `BibleRepository.load_chapter` (bible_repository.py
lines 34-79): a missing file raises FileNotFoundError (here `none`); otherwise
the file is decoded under the declared encoding, falling back to the alternate
encoding on UnicodeDecodeError; failure of both decodes raises (here `none`).
The success value is the list of rstripped lines. -/
def load_chapter (s : Store) (version : String) (book_id : Int) (chapter : Int) :
    Option (List String) :=
  match s version book_id chapter with
  | none => none
  | some f =>
    match f.primary with
    | some verses => some verses
    | none => f.fallback

/-- get_verse embeds `BibleRepository.get_verse` (lines 81-101): the 1-indexed
verse is returned when `0 < verse <= len(verses)`, and `None` otherwise; a
FileNotFoundError or UnicodeDecodeError from load_chapter is caught and also
yields `None`. -/
def get_verse (s : Store) (version : String) (book_id : Int) (chapter : Int)
    (verse : Int) : Option String :=
  match load_chapter s version book_id chapter with
  | none => none
  | some verses =>
    if 0 < verse ∧ verse ≤ (verses.length : Int) then
      verses.get? (verse - 1).toNat
    else
      none

/-- pySlice is Python's `l[s:e]` for ints with the default step: negative
bounds count from the end, and both bounds are clamped to the list. -/
def pySlice {α : Type} (l : List α) (s e : Int) : List α :=
  let n : Int := l.length
  let s2 : Int := if s < 0 then max (n + s) 0 else min s n
  let e2 : Int := if e < 0 then max (n + e) 0 else min e n
  (l.drop s2.toNat).take (e2 - s2).toNat

/-- get_verse_range embeds `BibleRepository.get_verse_range` (lines 103-125):
the slice `verses[verse_start - 1 : verse_end]`, with load failures caught and
returned as the empty list. -/
def get_verse_range (s : Store) (version : String) (book_id : Int) (chapter : Int)
    (verse_start : Int) (verse_end : Int) : List String :=
  match load_chapter s version book_id chapter with
  | none => []
  | some verses => pySlice verses (verse_start - 1) verse_end

/-- get_chapter_verse_count embeds `BibleRepository.get_chapter_verse_count`
(lines 131-147): the number of lines of the loaded chapter, or 0 when
load_chapter raises. -/
def get_chapter_verse_count (s : Store) (version : String) (book_id : Int)
    (chapter : Int) : Nat :=
  match load_chapter s version book_id chapter with
  | none => 0
  | some verses => verses.length

/-- Books models the loaded book-metadata dict: display name mapped to
(book_id, chapter_count), in insertion order. -/
def Books : Type := List (String × Int × Nat)

/-- pyLower models Python's str.lower character-wise; `Char.toLower` agrees
with Python on ASCII and on CJK characters (which have no case). -/
def pyLower (s : String) : String :=
  String.mk (s.data.map Char.toLower)

/-- startsWithStr is Python's str.startswith, as a character-list prefix
test. -/
def startsWithStr (s pre : String) : Bool :=
  pre.data.isPrefixOf s.data

/-- get_book_id embeds `get_book_id` (parsers.py lines 150-182): first a
case-insensitive exact scan over the table in order (first hit returned), then
the prefix candidates sorted by increasing name length with the first (i.e. a
shortest) candidate's id returned, else `None`. -/
def get_book_id (book_name : String) (books : Books) : Option Int :=
  match books.find? (fun p => pyLower p.1 == pyLower book_name) with
  | some p => some p.2.1
  | none =>
    let cands := books.filter (fun p => startsWithStr (pyLower p.1) (pyLower book_name))
    match cands.mergeSort (fun a b => decide (a.1.length ≤ b.1.length)) with
    | [] => none
    | p :: _ => some p.2.1

/-- intRange is Python's `range(a, b)` over ints, as a list. -/
def intRange (a b : Int) : List Int :=
  List.map (fun i : Nat => a + (i : Int)) (List.range (b - a).toNat)

/-- VerseDict models the per-verse dicts built by BibleEngine: the `'verse'`
key (held separately; `none` models a dict lacking the key, rendered as `?`)
and the remaining keys, version code to verse text, in insertion order. -/
structure VerseDict where
  verse : Option Int
  text : List (String × String)
deriving DecidableEq

/-- get_verse_data embeds `BibleEngine.get_verse_data` (bible_engine.py lines
31-55): resolve the book (Python `if not book_id` is falsy for both `None` and
`0`), then for each version keep the verse text only when it is truthy
(non-`None` and non-empty). -/
def get_verse_data (books : Books) (s : Store) (book_name : String) (chapter : Int)
    (verse : Int) (versions : List String) : List (String × String) :=
  match get_book_id book_name books with
  | none => []
  | some book_id =>
    if book_id = 0 then []
    else
      versions.filterMap (fun version =>
        match get_verse s version book_id chapter verse with
        | none => none
        | some t => if t = "" then none else some (version, t))

/-- get_verse_range_data embeds `BibleEngine.get_verse_range_data` (lines
57-90): one dict per verse number in `range(verse_start, verse_end + 1)`, with
the `'verse'` key first and then each version whose text is truthy. -/
def get_verse_range_data (books : Books) (s : Store) (book_name : String)
    (chapter : Int) (verse_start : Int) (verse_end : Int) (versions : List String) :
    List VerseDict :=
  match get_book_id book_name books with
  | none => []
  | some book_id =>
    if book_id = 0 then []
    else
      (intRange verse_start (verse_end + 1)).map (fun verse_num =>
        { verse := some verse_num
          text := versions.filterMap (fun version =>
            match get_verse s version book_id chapter verse_num with
            | none => none
            | some t => if t = "" then none else some (version, t)) })

/-- get_chapter_data embeds `BibleEngine.get_chapter_data` (lines 92-113):
resolve the book, take the verse count from the FIRST version in the list, and
return the range 1..count (empty when the count is 0).  Python raises
IndexError on `versions[0]` for an empty list; that case is unreachable under
the spec's non-empty-translations contract and is mapped to `[]` here. -/
def get_chapter_data (books : Books) (s : Store) (book_name : String)
    (chapter : Int) (versions : List String) : List VerseDict :=
  match get_book_id book_name books with
  | none => []
  | some book_id =>
    if book_id = 0 then []
    else
      match versions with
      | [] => []
      | v0 :: _ =>
        let verse_count := get_chapter_verse_count s v0 book_id chapter
        if verse_count = 0 then []
        else get_verse_range_data books s book_name chapter 1 (verse_count : Int) versions

/-- isSpaceChar models Python's `\s` / str.strip whitespace on the ASCII
range: space, tab, newline, carriage return, vertical tab, form feed.
(Python also treats some non-ASCII Unicode whitespace as `\s`; no claim here
involves such characters.) -/
def isSpaceChar (c : Char) : Bool :=
  c.toNat = 32 ∨ c.toNat = 9 ∨ c.toNat = 10 ∨ c.toNat = 13 ∨ c.toNat = 11 ∨ c.toNat = 12

/-- isDigitChar models `\d` as the ASCII digits `'0'`..`'9'` (code points
48-57).  (Python's `\d` additionally matches non-ASCII Unicode digits; no
claim here involves such characters.) -/
def isDigitChar (c : Char) : Bool :=
  48 ≤ c.toNat ∧ c.toNat ≤ 57

/-- isBookChar is the regex character class `[A-Za-z0-9一-鿿]` of
pattern 1 in parse_verse_reference. -/
def isBookChar (c : Char) : Bool :=
  (65 ≤ c.toNat ∧ c.toNat ≤ 90) ∨ (97 ≤ c.toNat ∧ c.toNat ≤ 122) ∨
    isDigitChar c ∨ (0x4e00 ≤ c.toNat ∧ c.toNat ≤ 0x9fff)

/-- digitsToNat is the value of `int(...)` on a digit string, accumulated left
to right. -/
def digitsToNat (l : List Char) : Nat :=
  l.foldl (fun a c => 10 * a + (c.toNat - 48)) 0

/-- pyStrip models Python's `str.strip()` on the character list: whitespace is
removed from both ends. -/
def pyStrip (l : List Char) : List Char :=
  ((l.dropWhile isSpaceChar).reverse.dropWhile isSpaceChar).reverse

/-- matchNums matches the regex tail `(\d+):(\d+)(?:-(\d+))?$`: a non-empty
digit run, a colon, a non-empty digit run, optionally a dash and a non-empty
digit run, then the end of the string.  Because the digit class is disjoint
from `:` / `-` and the optional group is anchored by `$`, the backtracking
regex is equivalent to this deterministic scan. -/
def matchNums (l : List Char) : Option (Nat × Nat × Option Nat) :=
  let d1 := l.takeWhile isDigitChar
  let r1 := l.dropWhile isDigitChar
  if d1 = [] then none
  else
    match r1 with
    | ':' :: r2 =>
      let d2 := r2.takeWhile isDigitChar
      let r3 := r2.dropWhile isDigitChar
      if d2 = [] then none
      else
        match r3 with
        | [] => some (digitsToNat d1, digitsToNat d2, none)
        | '-' :: r4 =>
          let d3 := r4.takeWhile isDigitChar
          let r5 := r4.dropWhile isDigitChar
          if d3 = [] then none
          else if r5 = [] then some (digitsToNat d1, digitsToNat d2, some (digitsToNat d3))
          else none
        | _ => none
    | _ => none

/-- matchPat1 matches pattern 1 of parse_verse_reference (parsers.py line 72),
`^([A-Za-z0-9一-鿿]+)\s+(\d+):(\d+)(?:-(\d+))?$`: because the book
class, the whitespace class and the digit/punctuation tail are disjoint at
every boundary, the greedy backtracking match is equivalent to taking the
maximal runs. -/
def matchPat1 (l : List Char) : Option (List Char × Nat × Nat × Option Nat) :=
  let bk := l.takeWhile isBookChar
  let r1 := l.dropWhile isBookChar
  if bk = [] then none
  else
    let sp := r1.takeWhile isSpaceChar
    let r2 := r1.dropWhile isSpaceChar
    if sp = [] then none
    else
      match matchNums r2 with
      | none => none
      | some (c, v1, v2) => some (bk, c, v1, v2)

/-- matchPat3 matches pattern 3 (parsers.py line 93),
`^(\d+)\s+(\d+)(?:-(\d+))?$`. -/
def matchPat3 (l : List Char) : Option (Nat × Nat × Option Nat) :=
  let d1 := l.takeWhile isDigitChar
  let r1 := l.dropWhile isDigitChar
  if d1 = [] then none
  else
    let sp := r1.takeWhile isSpaceChar
    let r2 := r1.dropWhile isSpaceChar
    if sp = [] then none
    else
      let d2 := r2.takeWhile isDigitChar
      let r3 := r2.dropWhile isDigitChar
      if d2 = [] then none
      else
        match r3 with
        | [] => some (digitsToNat d1, digitsToNat d2, none)
        | '-' :: r4 =>
          let d3 := r4.takeWhile isDigitChar
          let r5 := r4.dropWhile isDigitChar
          if d3 = [] then none
          else if r5 = [] then some (digitsToNat d1, digitsToNat d2, some (digitsToNat d3))
          else none
        | _ => none

/-- matchPat4 matches pattern 4 (parsers.py line 104), `^(\d+)$`. -/
def matchPat4 (l : List Char) : Option Nat :=
  if l ≠ [] ∧ l.all isDigitChar then some (digitsToNat l) else none

/-- VerseReference embeds the `VerseReference` class of parsers.py. -/
structure VerseReference where
  book : Option String
  chapter : Option Nat
  verse_start : Option Nat
  verse_end : Option Nat
deriving DecidableEq

/-- currentBookTruthy is Python's `not current_book` negated: a current book
is truthy when it is present and non-empty. -/
def currentBookTruthy (current_book : Option String) : Bool :=
  match current_book with
  | none => false
  | some b => b ≠ ""

/-- parse_verse_reference embeds `parse_verse_reference` (parsers.py lines
47-112): strip the input, fail on empty, then try the four patterns in order;
patterns 2, 3 and 4 return the failure sentinel immediately when the matched
pattern has no truthy current_book. -/
def parse_verse_reference (reference : String) (current_book : Option String) :
    Option VerseReference :=
  let cs := pyStrip reference.data
  if cs = [] then none
  else
    match matchPat1 cs with
    | some (bk, c, v1, v2) =>
      some { book := some (String.mk bk), chapter := some c,
             verse_start := some v1, verse_end := v2 }
    | none =>
      match matchNums cs with
      | some (c, v1, v2) =>
        if currentBookTruthy current_book then
          some { book := current_book, chapter := some c,
                 verse_start := some v1, verse_end := v2 }
        else none
      | none =>
        match matchPat3 cs with
        | some (c, v1, v2) =>
          if currentBookTruthy current_book then
            some { book := current_book, chapter := some c,
                   verse_start := some v1, verse_end := v2 }
          else none
        | none =>
          match matchPat4 cs with
          | some c =>
            if currentBookTruthy current_book then
              some { book := current_book, chapter := some c,
                     verse_start := none, verse_end := none }
            else none
          | none => none

/-- VERSION_NAMES embeds the module-level dict of content_renderer.py (lines
11-17), in insertion order. -/
def VERSION_NAMES : List (String × String) :=
  [("cuv", "和合本 (CUV)"),
   ("kjv", "King James (KJV)"),
   ("nas", "New American Standard (NAS)"),
   ("niv", "New International Version (NIV)"),
   ("dby", "Darby Translation (DBY)")]

/-- pyUpper models Python's str.upper on the ASCII range (version codes are
ASCII). -/
def pyUpper (v : String) : String :=
  String.mk (v.data.map Char.toUpper)

/-- shortLabel is the label given to a non-first version row (renderer lines
155-160 and 507-512): the display name's text after the first `(` with
trailing `)` characters stripped, or the uppercased code when the display name
has no `(`. -/
def shortLabel (version : String) : String :=
  let version_name :=
    match VERSION_NAMES.lookup version with
    | some n => n
    | none => pyUpper version
  if version_name.data.contains '(' then
    String.mk (((((version_name.data.dropWhile (fun c => c ≠ '(')).drop 1).takeWhile
      (fun c => c ≠ '(')).reverse.dropWhile (fun c => c = ')')).reverse)
  else pyUpper version

/-- Row models one emitted `verse-row` div: its color class, left label, text
class, and verse text, in document order.  The surrounding fixed HTML (page
head, title, script) carries no per-verse data and is not modelled. -/
structure Row where
  colorClass : String
  label : String
  textClass : String
  text : String
deriving DecidableEq

/-- colorClass is the alternating band color of renderer lines 140 and 492:
red on even index, blue on odd. -/
def colorClass (i : Nat) : String :=
  if i % 2 = 0 then "color-red" else "color-blue"

/-- verseLabel renders `verse_dict.get('verse', '?')` as it appears in the
first-version label `f"{chapter}:{verse_num}"`. -/
def verseLabel (chapter : Int) (verse : Option Int) : String :=
  toString chapter ++ ":" ++ (match verse with
    | some n => toString n
    | none => "?")

/-- rowsForVerse is the inner loop shared verbatim by render_bible_verses
(lines 143-167) and render_verses_html_only (lines 495-518): for each version
of the version list, in order, emit a row exactly when the verse dict has that
key; the first version (index 0 of the list, whether or not it emitted) is
labelled `chapter:verse`, later versions by their short name; the `cuv`
version gets the chinese text class. -/
def rowsForVerseAux (chapter : Int) (cls : String) (d : VerseDict) (idx : Nat) :
    List String → List Row
  | [] => []
  | v :: vs =>
    (match d.text.lookup v with
     | none => []
     | some t =>
       [{ colorClass := cls
          label := if idx = 0 then verseLabel chapter d.verse else shortLabel v
          textClass := if v = "cuv" then "verse-content chinese" else "verse-content"
          text := t }]) ++ rowsForVerseAux chapter cls d (idx + 1) vs

/-- rowsForVerse runs `for idx, version in enumerate(versions)` starting at
index 0. -/
def rowsForVerse (chapter : Int) (cls : String) (versions : List String)
    (d : VerseDict) : List Row :=
  rowsForVerseAux chapter cls d 0 versions

/-- renderRowsFrom is the verse loop with a running color index: the verse at
offset `i` from the start gets color `colorClass (start + i)`. -/
def renderRowsFrom (chapter : Int) (versions : List String) (start : Nat) :
    List VerseDict → List Row
  | [] => []
  | d :: ds =>
    rowsForVerse chapter (colorClass start) versions d ++
      renderRowsFrom chapter versions (start + 1) ds

/-- render_verses_html_only embeds the row output of `render_verses_html_only`
(renderer lines 471-520): the fragment renderer colors verse `verse_idx` with
`colorClass (start_color_index + verse_idx)` and renders the caller-supplied
version list. -/
def render_verses_html_only (chapter : Int) (verse_data : List VerseDict)
    (versions : List String) (start_color_index : Nat) : List Row :=
  renderRowsFrom chapter versions start_color_index verse_data

/-- versionsFromData embeds renderer lines 48-54: the versions rendered by the
full-page renderer are the keys of the FIRST verse dict (other than 'verse'),
in key order, restricted to the known VERSION_NAMES codes. -/
def versionsFromData (verse_data : List VerseDict) : List String :=
  match verse_data with
  | [] => []
  | first :: _ =>
    (first.text.map Prod.fst).filter (fun k => (VERSION_NAMES.lookup k).isSome)

/-- render_bible_verses embeds the row output of `render_bible_verses`
(renderer lines 20-167): for non-empty data the full-page renderer derives its
version list from the first verse dict and runs the same verse loop with the
color index starting at 0 (per-verse color `colorClass verse_idx`, lines
136-140); for empty data the function returns the empty-state page with no
verse rows (lines 36-37). -/
def render_bible_verses (chapter : Int) (verse_data : List VerseDict) : List Row :=
  match verse_data with
  | [] => []
  | _ => renderRowsFrom chapter (versionsFromData verse_data) 0 verse_data

/-- demoStoreC7 is a corpus with a single three-verse chapter, for witnesses. -/
def demoStoreC7 : Store := fun v b c =>
  if v = "kjv" ∧ b = 1 ∧ c = 1 then some ⟨some ["a", "b", "c"], none⟩ else none

/-- demoStoreC9 is a corpus with a single four-verse chapter, for witnesses. -/
def demoStoreC9 : Store := fun v b c =>
  if v = "kjv" ∧ b = 1 ∧ c = 1 then some ⟨some ["w", "x", "y", "z"], none⟩ else none

/-- missingStore is a corpus with no files at all. -/
def missingStore : Store := fun _ _ _ => none

/-- C7: getVerse is 1-indexed over the loaded verse list: on a loaded chapter
`["a","b","c"]` verse 1 is `"a"`, verse 3 is `"c"`, verse 4 is absent; in
general verse n is element n-1 exactly when 1 <= n <= length, and absent
otherwise. -/
theorem claim_C7 (s : Store) (version : String) (book_id chapter : Int)
    (verses : List String)
    (h : load_chapter s version book_id chapter = some verses) :
    (verses = ["a", "b", "c"] →
      get_verse s version book_id chapter 1 = some "a" ∧
      get_verse s version book_id chapter 3 = some "c" ∧
      get_verse s version book_id chapter 4 = none) ∧
    (∀ n : Int, 1 ≤ n → n ≤ (verses.length : Int) →
      get_verse s version book_id chapter n = verses.get? (n - 1).toNat) ∧
    (∀ n : Int, ¬(1 ≤ n ∧ n ≤ (verses.length : Int)) →
      get_verse s version book_id chapter n = none) := by
  refine ⟨?_, ?_, ?_⟩
  · rintro rfl
    refine ⟨?_, ?_, ?_⟩ <;> simp [get_verse, h]
  · intro n h1 h2
    simp only [get_verse, h]
    rw [if_pos ⟨by omega, h2⟩]
  · intro n hn
    simp only [get_verse, h]
    rw [if_neg (by omega)]

/-- Witness for C7 on a concrete three-verse corpus. -/
theorem claim_C7_witness :
    get_verse demoStoreC7 "kjv" 1 1 1 = some "a" ∧
    get_verse demoStoreC7 "kjv" 1 1 3 = some "c" ∧
    get_verse demoStoreC7 "kjv" 1 1 4 = none :=
  (claim_C7 demoStoreC7 "kjv" 1 1 ["a", "b", "c"] (by decide)).1 rfl

/-- C8: when the chapter file is missing, or decoding fails under both the
declared and the fallback encoding, get_verse is `None`, get_verse_range is
`[]` and get_chapter_verse_count is `0`; none of the three raises past the
repository boundary (totality is by construction in this embedding), so a
missing file is indistinguishable from a missing verse. -/
theorem claim_C8 (s : Store) (version : String) (book_id chapter : Int)
    (h : s version book_id chapter = none ∨
      ∃ f, s version book_id chapter = some f ∧ f.primary = none ∧ f.fallback = none) :
    (∀ verse : Int, get_verse s version book_id chapter verse = none) ∧
    (∀ a b : Int, get_verse_range s version book_id chapter a b = []) ∧
    get_chapter_verse_count s version book_id chapter = 0 := by
  have hl : load_chapter s version book_id chapter = none := by
    rcases h with h | ⟨f, hf, hp, hq⟩
    · simp [load_chapter, h]
    · simp [load_chapter, hf, hp, hq]
  exact ⟨fun verse => by simp [get_verse, hl],
    fun a b => by simp [get_verse_range, hl],
    by simp [get_chapter_verse_count, hl]⟩

/-- Witness for C8 on a corpus with no files. -/
theorem claim_C8_witness :
    get_verse missingStore "kjv" 1 1 5 = none ∧
    get_verse_range missingStore "kjv" 1 1 1 3 = [] ∧
    get_chapter_verse_count missingStore "kjv" 1 1 = 0 :=
  ⟨(claim_C8 missingStore "kjv" 1 1 (Or.inl rfl)).1 5,
   (claim_C8 missingStore "kjv" 1 1 (Or.inl rfl)).2.1 1 3,
   (claim_C8 missingStore "kjv" 1 1 (Or.inl rfl)).2.2⟩

/-- C9: on a loaded chapter of n verses, a request with
1 <= verse_start <= n < verse_end silently truncates at the chapter end,
returning exactly the verses from verse_start to n in order. -/
theorem claim_C9 (s : Store) (version : String) (book_id chapter : Int)
    (verses : List String) (verse_start verse_end : Int)
    (h : load_chapter s version book_id chapter = some verses)
    (h1 : 1 ≤ verse_start) (h2 : verse_start ≤ (verses.length : Int))
    (h3 : (verses.length : Int) < verse_end) :
    get_verse_range s version book_id chapter verse_start verse_end =
      verses.drop (verse_start - 1).toNat ∧
    (get_verse_range s version book_id chapter verse_start verse_end).length =
      verses.length - (verse_start - 1).toNat := by
  have hmain : get_verse_range s version book_id chapter verse_start verse_end =
      verses.drop (verse_start - 1).toNat := by
    simp only [get_verse_range, h, pySlice]
    rw [if_neg (by omega), if_neg (by omega)]
    have hs2 : min (verse_start - 1) (verses.length : Int) = verse_start - 1 := by omega
    have he2 : min verse_end (verses.length : Int) = (verses.length : Int) := by omega
    rw [hs2, he2]
    apply List.take_of_length_le
    rw [List.length_drop]
    omega
  refine ⟨hmain, ?_⟩
  rw [hmain, List.length_drop]

/-- Witness for C9: on a four-verse chapter, the request for verses 3-5
returns the two verses 3 and 4 only. -/
theorem claim_C9_witness :
    get_verse_range demoStoreC9 "kjv" 1 1 3 5 = ["y", "z"] ∧
    get_verse_range demoStoreC9 "kjv" 1 1 3 5 = ["w", "x", "y", "z"].drop 2 :=
  have h := (claim_C9 demoStoreC9 "kjv" 1 1 ["w", "x", "y", "z"] 3 5 (by decide)
    (by decide) (by decide) (by decide)).1
  ⟨h.trans (by decide), h⟩

/-- lookup_filterMap_none: a lookup misses in a filterMap-built association
list when the generator yields nothing at the looked-up key and every produced
pair is keyed by its generating element. -/
theorem lookup_filterMap_none (versions : List String)
    (f : String → Option (String × String)) (ver : String)
    (hf : f ver = none) (hk : ∀ v p, f v = some p → p.1 = v) :
    (versions.filterMap f).lookup ver = none := by
  induction versions with
  | nil => rfl
  | cons v vs ih =>
    rw [List.filterMap_cons]
    cases hv : f v with
    | none => exact ih
    | some p =>
      have hpv : p.1 = v := hk v p hv
      have hne : v ≠ ver := by
        intro he
        rw [he, hf] at hv
        exact Option.noConfusion hv
      rw [List.lookup_cons]
      have : (ver == p.1) = false := by
        rw [hpv]
        exact beq_false_of_ne (fun he => hne he.symm)
      rw [this]
      exact ih

/-- demoBooks is a small book-metadata table for witnesses: the four names
share the prefix "John". -/
def demoBooks : Books :=
  [("John", 43, 21), ("John1", 62, 5), ("John2", 63, 1), ("John3", 64, 1)]

/-- emptyVerseStore has chapter 3 of book 43 in kjv with verse 1 = "x" and
verse 2 = "" (a blank line), for witnesses. -/
def emptyVerseStore : Store := fun v b c =>
  if v = "kjv" ∧ b = 43 ∧ c = 3 then some ⟨some ["x", ""], none⟩ else none

/-- C10: at the engine interface, a verse whose stored text in some version is
the empty string has that version's key omitted from the verse record, in the
single-verse operation and in the verse-range operation alike (Python's
`if verse_text:` is false for the empty string as well as for `None`). -/
theorem claim_C10 (books : Books) (s : Store) (book_name : String) (chapter : Int)
    (versions : List String) (ver : String) (book_id : Int)
    (hres : get_book_id book_name books = some book_id) (hid : book_id ≠ 0) :
    (∀ verse : Int, get_verse s ver book_id chapter verse = some "" →
      (get_verse_data books s book_name chapter verse versions).lookup ver = none) ∧
    (∀ vs ve n : Int, get_verse s ver book_id chapter n = some "" →
      ∀ d ∈ get_verse_range_data books s book_name chapter vs ve versions,
        d.verse = some n → d.text.lookup ver = none) := by
  constructor
  · intro verse hv
    simp only [get_verse_data, hres]
    rw [if_neg hid]
    apply lookup_filterMap_none
    · rw [hv]
      simp
    · intro v p hp
      revert hp
      cases get_verse s v book_id chapter verse with
      | none => intro hp; exact Option.noConfusion hp
      | some t =>
        simp only []
        intro hp
        by_cases ht : t = ""
        · rw [if_pos ht] at hp
          exact Option.noConfusion hp
        · rw [if_neg ht] at hp
          cases hp
          rfl
  · intro vs ve n hv d hd hdn
    simp only [get_verse_range_data, hres] at hd
    rw [if_neg hid] at hd
    obtain ⟨m, _, rfl⟩ := List.mem_map.1 hd
    simp only [] at hdn
    have hm : m = n := by
      have := Option.some.inj hdn
      exact this
    subst hm
    simp only []
    apply lookup_filterMap_none
    · rw [hv]
      simp
    · intro v p hp
      revert hp
      cases get_verse s v book_id chapter m with
      | none => intro hp; exact Option.noConfusion hp
      | some t =>
        simp only []
        intro hp
        by_cases ht : t = ""
        · rw [if_pos ht] at hp
          exact Option.noConfusion hp
        · rw [if_neg ht] at hp
          cases hp
          rfl

/-- Witness for C10 on a chapter whose verse 2 is a blank line. -/
theorem claim_C10_witness :
    (get_verse_data demoBooks emptyVerseStore "John" 3 2 ["kjv"]).lookup "kjv" = none ∧
    ∀ d ∈ get_verse_range_data demoBooks emptyVerseStore "John" 3 1 2 ["kjv"],
      d.verse = some 2 → d.text.lookup "kjv" = none :=
  have h := claim_C10 demoBooks emptyVerseStore "John" 3 ["kjv"] "kjv" 43
    (by decide) (by decide)
  ⟨h.1 2 (by decide), h.2 1 2 2 (by decide)⟩

/-- length_intRange: Python's range(a, b) has (b - a) elements (clamped at
zero). -/
theorem length_intRange (a b : Int) : (intRange a b).length = (b - a).toNat := by
  rw [intRange, List.length_map, List.length_range]

/-- mem_intRange characterises membership in Python's range(a, b). -/
theorem mem_intRange {a b n : Int} : n ∈ intRange a b ↔ a ≤ n ∧ n < b := by
  simp only [intRange, List.mem_map, List.mem_range]
  constructor
  · rintro ⟨i, hi, rfl⟩
    omega
  · intro ⟨h1, h2⟩
    exact ⟨(n - a).toNat, by omega, by omega⟩

/-- get_verse_truncate: a verse read within the first k verses of a chapter is
unchanged when the chapter list is truncated to its first k verses. -/
theorem get_verse_truncate (lb : List String) (k : Nat) (n : Int)
    (hk : k ≤ lb.length) (hn : n ≤ (k : Int)) (s s2 : Store)
    (version : String) (book_id chapter : Int)
    (h1 : load_chapter s version book_id chapter = some lb)
    (h2 : load_chapter s2 version book_id chapter = some (lb.take k)) :
    get_verse s2 version book_id chapter n = get_verse s version book_id chapter n := by
  simp only [get_verse, h1, h2]
  by_cases hp : 0 < n
  · have hlen : ((lb.take k).length : Int) = (k : Int) := by
      rw [List.length_take]
      omega
    rw [if_pos ⟨hp, by omega⟩, if_pos ⟨hp, by omega⟩]
    rw [List.get?_eq_getElem?, List.get?_eq_getElem?, List.getElem?_take,
      if_pos (by omega)]
  · rw [if_neg (by omega), if_neg (by omega)]

/-- C2: an entire-chapter request takes its verse count from the first listed
translation only; a zero count yields the empty result; and with a
first translation of 10 verses and a second of 12, the result has exactly 10
verse slots and is unchanged when the second translation's chapter is
truncated to its first 10 verses (so its verses 11-12 are never fetched). -/
theorem claim_C2 (books : Books) (s : Store) (book_name : String) (chapter : Int)
    (v0 : String) (rest : List String) (book_id : Int)
    (hres : get_book_id book_name books = some book_id) (hid : book_id ≠ 0) :
    (get_chapter_verse_count s v0 book_id chapter = 0 →
      get_chapter_data books s book_name chapter (v0 :: rest) = []) ∧
    (get_chapter_verse_count s v0 book_id chapter ≠ 0 →
      (get_chapter_data books s book_name chapter (v0 :: rest)).length =
        get_chapter_verse_count s v0 book_id chapter) ∧
    (∀ (B : String) (la lb : List String),
      v0 ≠ B → rest = [B] →
      load_chapter s v0 book_id chapter = some la → la.length = 10 →
      load_chapter s B book_id chapter = some lb → lb.length = 12 →
      (get_chapter_data books s book_name chapter (v0 :: rest)).length = 10 ∧
      get_chapter_data books s book_name chapter (v0 :: rest) =
        get_chapter_data books
          (updateStore s B book_id chapter (some ⟨some (lb.take 10), none⟩))
          book_name chapter (v0 :: rest)) := by
  have hzero : get_chapter_verse_count s v0 book_id chapter = 0 →
      get_chapter_data books s book_name chapter (v0 :: rest) = [] := by
    intro h0
    simp only [get_chapter_data, hres]
    rw [if_neg hid, h0]
    rfl
  have hlen : get_chapter_verse_count s v0 book_id chapter ≠ 0 →
      (get_chapter_data books s book_name chapter (v0 :: rest)).length =
        get_chapter_verse_count s v0 book_id chapter := by
    intro h0
    simp only [get_chapter_data, hres]
    rw [if_neg hid, if_neg h0]
    simp only [get_verse_range_data, hres]
    rw [if_neg hid]
    rw [List.length_map, length_intRange]
    omega
  refine ⟨hzero, hlen, ?_⟩
  intro B la lb hvB hrest hla hla10 hlb hlb12
  subst hrest
  set s2 : Store := updateStore s B book_id chapter (some ⟨some (lb.take 10), none⟩) with hs2
  have hagree : ∀ v b c, v ≠ B → s2 v b c = s v b c := by
    intro v b c hv
    simp only [hs2, updateStore]
    rw [if_neg (by tauto)]
  have hload_eq : ∀ v b c, v ≠ B → load_chapter s2 v b c = load_chapter s v b c := by
    intro v b c hv
    simp only [load_chapter, hagree v b c hv]
  have hloadB : load_chapter s2 B book_id chapter = some (lb.take 10) := by
    simp [hs2, load_chapter, updateStore]
  have hcount : get_chapter_verse_count s v0 book_id chapter = 10 := by
    simp only [get_chapter_verse_count, hla, hla10]
  have hcount2 : get_chapter_verse_count s2 v0 book_id chapter = 10 := by
    simp only [get_chapter_verse_count, hload_eq v0 book_id chapter hvB, hla, hla10]
  constructor
  · rw [hlen (by omega), hcount]
  · have hne10 : ¬((10 : Nat) = 0) := by norm_num
    simp only [get_chapter_data, hres, if_neg hid, hcount, hcount2, if_neg hne10]
    simp only [get_verse_range_data, hres, if_neg hid]
    apply List.map_congr_left
    intro n hn
    rw [mem_intRange] at hn
    have hguard : ∀ version, version ≠ B →
        get_verse s version book_id chapter n = get_verse s2 version book_id chapter n := by
      intro version hv
      simp only [get_verse, hload_eq version book_id chapter hv]
    have hB : get_verse s B book_id chapter n = get_verse s2 B book_id chapter n :=
      (get_verse_truncate lb 10 n (by omega) (by omega) s s2 B book_id chapter
        hlb hloadB).symm
    congr 1
    apply List.filterMap_congr
    intro version hver
    rcases List.mem_cons.1 hver with rfl | hver2
    · rw [hguard version hvB]
    · rw [List.mem_singleton] at hver2
      subst hver2
      rw [hB]

/-- kjv10 is a ten-verse chapter text for the C2 witness. -/
def kjv10 : List String :=
  ["A1", "A2", "A3", "A4", "A5", "A6", "A7", "A8", "A9", "A10"]

/-- cuv12 is a twelve-verse chapter text for the C2 witness. -/
def cuv12 : List String :=
  ["B1", "B2", "B3", "B4", "B5", "B6", "B7", "B8", "B9", "B10", "B11", "B12"]

/-- storeC2 holds chapter 3 of book 43 with 10 kjv verses and 12 cuv
verses. -/
def storeC2 : Store := fun v b c =>
  if v = "kjv" ∧ b = 43 ∧ c = 3 then some ⟨some kjv10, none⟩
  else if v = "cuv" ∧ b = 43 ∧ c = 3 then some ⟨some cuv12, none⟩
  else none

/-- Witness for C2: the 10-verse first translation fixes the slot count at 10
and truncating the 12-verse second translation to 10 verses leaves the result
unchanged. -/
theorem claim_C2_witness :
    (get_chapter_data demoBooks storeC2 "John" 3 ("kjv" :: ["cuv"])).length = 10 ∧
    get_chapter_data demoBooks storeC2 "John" 3 ("kjv" :: ["cuv"]) =
      get_chapter_data demoBooks
        (updateStore storeC2 "cuv" 43 3 (some ⟨some (cuv12.take 10), none⟩))
        "John" 3 ("kjv" :: ["cuv"]) :=
  (claim_C2 demoBooks storeC2 "John" 3 "kjv" ["cuv"] 43 (by decide) (by decide)).2.2
    "cuv" kjv10 cuv12 (by decide) rfl (by decide) (by decide) (by decide) (by decide)

/-- C3: book resolution first returns the id of a case-insensitive exact match
(scanning every loaded name), and otherwise the id of a shortest loaded name
whose lowercase form starts with the lowercase query; on the table
John/John1/John2/John3 the query "John" resolves to the id of "John"
exactly. -/
theorem claim_C3 (q : String) (books : Books) :
    (∀ p, books.find? (fun r => pyLower r.1 == pyLower q) = some p →
      get_book_id q books = some p.2.1) ∧
    (books.find? (fun r => pyLower r.1 == pyLower q) = none →
      books.filter (fun r => startsWithStr (pyLower r.1) (pyLower q)) ≠ [] →
      ∃ m ∈ books.filter (fun r => startsWithStr (pyLower r.1) (pyLower q)),
        get_book_id q books = some m.2.1 ∧
        ∀ r ∈ books.filter (fun r => startsWithStr (pyLower r.1) (pyLower q)),
          m.1.length ≤ r.1.length) ∧
    get_book_id "John" demoBooks = some 43 := by
  refine ⟨?_, ?_, by decide⟩
  · intro p hp
    simp [get_book_id, hp]
  · intro hf hne
    have hperm := List.mergeSort_perm
      (books.filter (fun r => startsWithStr (pyLower r.1) (pyLower q)))
      (fun a b => decide (a.1.length ≤ b.1.length))
    have hsorted := @List.sorted_mergeSort (String × Int × Nat)
      (fun a b => decide (a.1.length ≤ b.1.length))
      (fun a b c hab hbc => by
        simp only [decide_eq_true_eq] at hab hbc ⊢
        omega)
      (fun a b => by
        simp only [Bool.or_eq_true, decide_eq_true_eq]
        omega)
      (books.filter (fun r => startsWithStr (pyLower r.1) (pyLower q)))
    cases hs : (books.filter (fun r => startsWithStr (pyLower r.1) (pyLower q))).mergeSort
        (fun a b => decide (a.1.length ≤ b.1.length)) with
    | nil =>
      rw [hs] at hperm
      exact absurd (List.nil_perm.1 hperm) hne
    | cons m t =>
      rw [hs] at hperm hsorted
      refine ⟨m, hperm.mem_iff.1 (List.mem_cons_self m t), ?_, ?_⟩
      · simp only [get_book_id, hf, hs]
      · intro r hr
        have hr2 : r ∈ m :: t := hperm.mem_iff.2 hr
        rcases List.mem_cons.1 hr2 with rfl | ht
        · exact le_refl _
        · have hmr := (List.pairwise_cons.1 hsorted).1 r ht
          simpa using hmr

/-- Witness for C3: the case-insensitive exact branch applied to a concrete
table and query. -/
theorem claim_C3_witness : get_book_id "john" demoBooks = some 43 :=
  (claim_C3 "john" demoBooks).1 ("John", 43, 21) (by decide)

/-- rowsForVerseAux_map_text: the texts of the rows emitted for one verse are
exactly the texts of the versions present in its dict, in version order,
whatever the running index. -/
theorem rowsForVerseAux_map_text (chapter : Int) (cls : String) (d : VerseDict)
    (idx : Nat) (versions : List String) :
    (rowsForVerseAux chapter cls d idx versions).map Row.text =
      versions.filterMap (fun v => d.text.lookup v) := by
  induction versions generalizing idx with
  | nil => rfl
  | cons v vs ih =>
    simp only [rowsForVerseAux, List.filterMap_cons]
    cases d.text.lookup v with
    | none => simpa using ih (idx + 1)
    | some t => simpa using ih (idx + 1)

/-- renderRowsFrom_map_text lifts rowsForVerseAux_map_text over a verse
list. -/
theorem renderRowsFrom_map_text (chapter : Int) (versions : List String)
    (start : Nat) (verse_data : List VerseDict) :
    (renderRowsFrom chapter versions start verse_data).map Row.text =
      (verse_data.map (fun d => versions.filterMap (fun v => d.text.lookup v))).flatten := by
  induction verse_data generalizing start with
  | nil => rfl
  | cons d ds ih =>
    simp only [renderRowsFrom, rowsForVerse, List.map_cons, List.map_append,
      List.flatten_cons]
    rw [rowsForVerseAux_map_text, ih (start + 1)]

/-- exC5 is a verse list whose first record has only kjv text and whose second
record has only cuv text. -/
def exC5 : List VerseDict :=
  [⟨some 1, [("kjv", "x")]⟩, ⟨some 2, [("cuv", "y")]⟩]

/-- Counterexample to C5 as stated: in the full-page render the rendered
version set is derived from the FIRST verse record, so the second record's
present translation (cuv, text "y") produces no row at all — the claim
requires a row for every translation present in a record. -/
theorem claim_C5_counterexample :
    render_bible_verses 3 exC5 =
      [{ colorClass := "color-red", label := "3:1", textClass := "verse-content",
         text := "x" }] ∧
    (render_bible_verses 3 exC5).map Row.text = ["x"] := by
  decide

/-- C5 amended: within the versions selected for rendering (caller-supplied
for the fragment renderer; derived from the first record's recognised keys for
the full-page renderer), each verse's emitted row texts are exactly the texts
of the versions present in that verse's record, in version-list order — a
present translation yields its row and an absent translation yields no row and
no placeholder. -/
theorem claim_C5 (chapter : Int) (versions : List String) (start : Nat)
    (verse_data : List VerseDict) :
    (render_verses_html_only chapter verse_data versions start).map Row.text =
      (verse_data.map (fun d => versions.filterMap (fun v => d.text.lookup v))).flatten ∧
    (render_bible_verses chapter verse_data).map Row.text =
      (verse_data.map (fun d =>
        (versionsFromData verse_data).filterMap (fun v => d.text.lookup v))).flatten := by
  constructor
  · exact renderRowsFrom_map_text chapter versions start verse_data
  · cases verse_data with
    | nil => rfl
    | cons d ds =>
      exact renderRowsFrom_map_text chapter (versionsFromData (d :: ds)) 0 (d :: ds)

/-- renderRowsFrom_append: rendering a concatenated verse list splits into the
two renders with the color index advanced by the first part's length. -/
theorem renderRowsFrom_append (chapter : Int) (versions : List String)
    (start : Nat) (xs ys : List VerseDict) :
    renderRowsFrom chapter versions start (xs ++ ys) =
      renderRowsFrom chapter versions start xs ++
        renderRowsFrom chapter versions (start + xs.length) ys := by
  induction xs generalizing start with
  | nil => simp [renderRowsFrom]
  | cons d ds ih =>
    simp only [List.cons_append, renderRowsFrom, List.length_cons, List.append_eq,
      List.append_assoc]
    rw [ih (start + 1), show start + 1 + ds.length = start + (ds.length + 1) from by omega]

/-- C1: splitting a render at any point k >= 1 — the first k verses through
the full-page renderer and the rest through the fragment renderer with
startColorIndex = k — yields exactly the rows (colors included) of the single
combined full-page render; and the banding alternates, so combined indices 9
and 10 (verses 10 and 11 of a 1-based list) get different color classes while
the fragment's verse at offset 9 from startColorIndex 10 gets the combined
index-19 color. -/
theorem claim_C1 (chapter : Int) (verse_data : List VerseDict) (k : Nat)
    (hk : 1 ≤ k) :
    render_bible_verses chapter verse_data =
      render_bible_verses chapter (verse_data.take k) ++
        render_verses_html_only chapter (verse_data.drop k)
          (versionsFromData verse_data) k ∧
    colorClass 9 ≠ colorClass 10 ∧
    colorClass (10 + 9) = colorClass 19 := by
  refine ⟨?_, by decide, rfl⟩
  cases verse_data with
  | nil =>
    simp [render_bible_verses, render_verses_html_only, renderRowsFrom]
  | cons d ds =>
    obtain ⟨k2, rfl⟩ : ∃ k2, k = k2 + 1 := ⟨k - 1, by omega⟩
    have hsplit := renderRowsFrom_append chapter (versionsFromData (d :: ds)) 0
      ((d :: ds).take (k2 + 1)) ((d :: ds).drop (k2 + 1))
    rw [List.take_append_drop] at hsplit
    have htake : (d :: ds).take (k2 + 1) = d :: ds.take k2 := rfl
    have hvers : versionsFromData ((d :: ds).take (k2 + 1)) =
        versionsFromData (d :: ds) := rfl
    show renderRowsFrom chapter (versionsFromData (d :: ds)) 0 (d :: ds) =
      render_bible_verses chapter ((d :: ds).take (k2 + 1)) ++
        renderRowsFrom chapter (versionsFromData (d :: ds)) (k2 + 1)
          ((d :: ds).drop (k2 + 1))
    have hbody : render_bible_verses chapter ((d :: ds).take (k2 + 1)) =
        renderRowsFrom chapter (versionsFromData (d :: ds)) 0
          ((d :: ds).take (k2 + 1)) := by
      rw [htake]
      rfl
    rw [hbody, hsplit]
    by_cases hle : k2 + 1 ≤ ds.length + 1
    · have hlen : ((d :: ds).take (k2 + 1)).length = k2 + 1 := by
        rw [List.length_take]
        simp only [List.length_cons]
        omega
      rw [hlen]
      norm_num
    · have hdrop : (d :: ds).drop (k2 + 1) = [] := by
        apply List.drop_eq_nil_of_le
        simp only [List.length_cons]
        omega
      rw [hdrop]
      simp [renderRowsFrom]

/-- exC1 is a two-verse list for the C1 witness. -/
def exC1 : List VerseDict :=
  [⟨some 1, [("kjv", "u")]⟩, ⟨some 2, [("kjv", "w")]⟩]

/-- Witness for C1 at the split point k = 1 of a concrete two-verse list. -/
theorem claim_C1_witness :
    render_bible_verses 3 exC1 =
      render_bible_verses 3 (exC1.take 1) ++
        render_verses_html_only 3 (exC1.drop 1) (versionsFromData exC1) 1 :=
  (claim_C1 3 exC1 1 (by decide)).1

/-- C4: the contextual inputs "3:16", "3 16" and "13" parse to the failure
sentinel without a current book and succeed with one; and "13" with a current
book is an entire-chapter reference for chapter 13 (verse_start and verse_end
absent), not a verse number or a book name. -/
theorem claim_C4 (b : String) (hb : b ≠ "") :
    parse_verse_reference "3:16" none = none ∧
    parse_verse_reference "3 16" none = none ∧
    parse_verse_reference "13" none = none ∧
    parse_verse_reference "3:16" (some b) =
      some ⟨some b, some 3, some 16, none⟩ ∧
    parse_verse_reference "3 16" (some b) =
      some ⟨some b, some 3, some 16, none⟩ ∧
    parse_verse_reference "13" (some b) =
      some ⟨some b, some 13, none, none⟩ := by
  have ht : currentBookTruthy (some b) = true := by
    simp [currentBookTruthy, hb]
  refine ⟨by decide, by decide, by decide, ?_, ?_, ?_⟩
  · have e1 : parse_verse_reference "3:16" (some b) =
        if currentBookTruthy (some b) = true then some ⟨some b, some 3, some 16, none⟩
        else none := rfl
    rw [e1, if_pos ht]
  · have e1 : parse_verse_reference "3 16" (some b) =
        if currentBookTruthy (some b) = true then some ⟨some b, some 3, some 16, none⟩
        else none := rfl
    rw [e1, if_pos ht]
  · have e1 : parse_verse_reference "13" (some b) =
        if currentBookTruthy (some b) = true then some ⟨some b, some 13, none, none⟩
        else none := rfl
    rw [e1, if_pos ht]

/-- Witness for C4 with the concrete current book "John". -/
theorem claim_C4_witness :
    parse_verse_reference "3:16" none = none ∧
    parse_verse_reference "3 16" none = none ∧
    parse_verse_reference "13" none = none ∧
    parse_verse_reference "3:16" (some "John") =
      some ⟨some "John", some 3, some 16, none⟩ ∧
    parse_verse_reference "3 16" (some "John") =
      some ⟨some "John", some 3, some 16, none⟩ ∧
    parse_verse_reference "13" (some "John") =
      some ⟨some "John", some 13, none, none⟩ :=
  claim_C4 "John" (by decide)

/-- natDigits is the decimal digit-character list of a natural number, most
significant digit first; it equals the character data of `Nat.repr`. -/
def natDigits (n : Nat) : List Char :=
  if n < 10 then [Nat.digitChar n]
  else natDigits (n / 10) ++ [Nat.digitChar (n % 10)]
termination_by n
decreasing_by exact Nat.div_lt_self (by omega) (by omega)

/-- digitChar_isDigit: the digit characters 0-9 lie in the ASCII digit
class. -/
theorem digitChar_isDigit : ∀ k, k < 10 → isDigitChar (Nat.digitChar k) = true := by
  decide

/-- digitChar_val: the ASCII value of a digit character recovers the digit. -/
theorem digitChar_val : ∀ k, k < 10 → (Nat.digitChar k).toNat - 48 = k := by
  decide

/-- natDigits_ne_nil: every natural number has at least one digit. -/
theorem natDigits_ne_nil (n : Nat) : natDigits n ≠ [] := by
  rw [natDigits]
  by_cases h : n < 10
  · simp [h]
  · simp [h]

/-- natDigits_all_digits: every character of natDigits is an ASCII digit. -/
theorem natDigits_all_digits (n : Nat) : ∀ c ∈ natDigits n, isDigitChar c = true := by
  induction n using Nat.strong_induction_on with
  | _ n ih =>
    rw [natDigits]
    by_cases h : n < 10
    · simp only [if_pos h, List.mem_singleton]
      rintro c rfl
      exact digitChar_isDigit n h
    · simp only [if_neg h, List.mem_append, List.mem_singleton]
      rintro c (hc | rfl)
      · exact ih (n / 10) (Nat.div_lt_self (by omega) (by omega)) c hc
      · exact digitChar_isDigit (n % 10) (Nat.mod_lt n (by omega))

/-- foldl_digits_natDigits: accumulating the digits of n onto a extends a by n
in base ten. -/
theorem foldl_digits_natDigits (n : Nat) : ∀ a : Nat,
    (natDigits n).foldl (fun x c => 10 * x + (c.toNat - 48)) a =
      a * 10 ^ (natDigits n).length + n := by
  induction n using Nat.strong_induction_on with
  | _ n ih =>
    intro a
    rw [natDigits]
    by_cases h : n < 10
    · simp only [if_pos h, List.foldl_cons, List.foldl_nil, List.length_singleton]
      rw [digitChar_val n h]
      ring
    · simp only [if_neg h, List.foldl_append, List.foldl_cons, List.foldl_nil,
        List.length_append, List.length_singleton]
      rw [ih (n / 10) (Nat.div_lt_self (by omega) (by omega)) a]
      rw [digitChar_val (n % 10) (Nat.mod_lt n (by omega))]
      have hmod : 10 * (a * 10 ^ (natDigits (n / 10)).length + n / 10) + n % 10 =
          a * (10 ^ (natDigits (n / 10)).length * 10) + (10 * (n / 10) + n % 10) := by
        ring
      rw [hmod, Nat.div_add_mod, pow_succ]

/-- digitsToNat_natDigits: digitsToNat is a left inverse of natDigits. -/
theorem digitsToNat_natDigits (n : Nat) : digitsToNat (natDigits n) = n := by
  rw [digitsToNat, foldl_digits_natDigits n 0]
  simp

/-- toDigitsCore_eq_natDigits: with enough fuel, the core printer of `Nat`
produces natDigits. -/
theorem toDigitsCore_eq_natDigits : ∀ (f n : Nat) (ds : List Char), n < f →
    Nat.toDigitsCore 10 f n ds = natDigits n ++ ds := by
  intro f
  induction f with
  | zero => intro n ds h; omega
  | succ f ih =>
    intro n ds _
    show Nat.toDigitsCore 10 (f + 1) n ds = natDigits n ++ ds
    simp only [Nat.toDigitsCore]
    by_cases h0 : n / 10 = 0
    · have hn : n < 10 := by omega
      rw [if_pos h0, natDigits, if_pos hn, Nat.mod_eq_of_lt hn]
      rfl
    · have hn : ¬(n < 10) := by omega
      rw [if_neg h0, ih (n / 10) (Nat.digitChar (n % 10) :: ds) (by omega)]
      conv_rhs => rw [natDigits]
      rw [if_neg hn]
      simp

/-- repr_data: the characters of `Nat.repr` are natDigits. -/
theorem repr_data (n : Nat) : (Nat.repr n).data = natDigits n := by
  have h : (Nat.repr n).data = Nat.toDigitsCore 10 (n + 1) n [] := rfl
  rw [h, toDigitsCore_eq_natDigits (n + 1) n [] (by omega), List.append_nil]

/-- head_digit_of_natDigits: the leading character of natDigits is a digit. -/
theorem head_digit_of_natDigits (n : Nat) :
    ∀ c, (natDigits n).head? = some c → isDigitChar c = true := by
  intro c hc
  cases hd : natDigits n with
  | nil => rw [hd] at hc; exact Option.noConfusion hc
  | cons a l =>
    rw [hd] at hc
    have : a = c := Option.some.inj hc
    subst this
    exact natDigits_all_digits n a (hd ▸ List.mem_cons_self a l)

/-- getLast_digit_of_natDigits: the trailing character of natDigits is a
digit. -/
theorem getLast_digit_of_natDigits (n : Nat) :
    ∀ c, (natDigits n).getLast? = some c → isDigitChar c = true :=
  fun c hc => natDigits_all_digits n c (List.mem_of_mem_getLast? hc)

/-- natDigits_getLast_ex: natDigits has a last character, a digit. -/
theorem natDigits_getLast_ex (n : Nat) :
    ∃ c, (natDigits n).getLast? = some c ∧ isDigitChar c = true := by
  have h := List.getLast?_eq_getLast (natDigits n) (natDigits_ne_nil n)
  exact ⟨_, h, getLast_digit_of_natDigits n _ h⟩

/-- book_not_space: the book character class contains no whitespace. -/
theorem book_not_space {c : Char} (h : isBookChar c = true) : isSpaceChar c = false := by
  simp only [isBookChar, isDigitChar, Bool.decide_or, Bool.or_eq_true,
    decide_eq_true_eq] at h
  simp only [isSpaceChar, decide_eq_false_iff_not]
  omega

/-- digit_not_space: the digit class contains no whitespace. -/
theorem digit_not_space {c : Char} (h : isDigitChar c = true) : isSpaceChar c = false := by
  simp only [isDigitChar, decide_eq_true_eq] at h
  simp only [isSpaceChar, decide_eq_false_iff_not]
  omega

/-- takeWhile_append_all: a scan over l ++ r takes exactly l when all of l
satisfies p and the head of r does not. -/
theorem takeWhile_append_all {p : Char → Bool} (l r : List Char)
    (hl : ∀ c ∈ l, p c = true) (hr : ∀ c, r.head? = some c → p c = false) :
    (l ++ r).takeWhile p = l := by
  induction l with
  | nil =>
    cases r with
    | nil => rfl
    | cons a rs =>
      simp [List.takeWhile_cons, hr a rfl]
  | cons a ls ih =>
    simp [List.takeWhile_cons, hl a (List.mem_cons_self a ls),
      ih (fun c hc => hl c (List.mem_cons_of_mem a hc))]

/-- dropWhile_append_all: the companion of takeWhile_append_all. -/
theorem dropWhile_append_all {p : Char → Bool} (l r : List Char)
    (hl : ∀ c ∈ l, p c = true) (hr : ∀ c, r.head? = some c → p c = false) :
    (l ++ r).dropWhile p = r := by
  induction l with
  | nil =>
    cases r with
    | nil => rfl
    | cons a rs =>
      simp [List.dropWhile_cons, hr a rfl]
  | cons a ls ih =>
    simp [List.dropWhile_cons, hl a (List.mem_cons_self a ls),
      ih (fun c hc => hl c (List.mem_cons_of_mem a hc))]

/-- dropWhile_eq_self_of_head: a scan that fails at the head drops nothing. -/
theorem dropWhile_eq_self_of_head {p : Char → Bool} {l : List Char}
    (h : ∀ c, l.head? = some c → p c = false) : l.dropWhile p = l := by
  cases l with
  | nil => rfl
  | cons a ls => simp [List.dropWhile_cons, h a rfl]

/-- pyStrip_eq_self: stripping is the identity when both ends are not
whitespace. -/
theorem pyStrip_eq_self (l : List Char)
    (h1 : ∀ c, l.head? = some c → isSpaceChar c = false)
    (h2 : ∀ c, l.getLast? = some c → isSpaceChar c = false) : pyStrip l = l := by
  rw [pyStrip, dropWhile_eq_self_of_head h1]
  rw [dropWhile_eq_self_of_head (fun c hc => h2 c ((List.head?_reverse l) ▸ hc))]
  exact List.reverse_reverse l

/-- head_imp turns a head fact into the head-predicate form used by the span
lemmas. -/
theorem head_imp {p : Char → Bool} (a : Char) (l : List Char) (h : p a = false) :
    ∀ c, (a :: l).head? = some c → p c = false := by
  intro c hc
  rw [List.head?_cons] at hc
  have ha : a = c := Option.some.inj hc
  subst ha
  exact h

/-- head_nil is the vacuous head-predicate form for the empty remainder. -/
theorem head_nil {p : Char → Bool} : ∀ c, ([] : List Char).head? = some c → p c = false :=
  fun _ hc => Option.noConfusion hc

/-- takeWhile_all: a scan over an all-satisfying list takes everything. -/
theorem takeWhile_all {p : Char → Bool} (l : List Char) (hl : ∀ c ∈ l, p c = true) :
    l.takeWhile p = l := by
  have h := takeWhile_append_all l [] hl head_nil
  rwa [List.append_nil] at h

/-- dropWhile_all: a scan over an all-satisfying list drops everything. -/
theorem dropWhile_all {p : Char → Bool} (l : List Char) (hl : ∀ c ∈ l, p c = true) :
    l.dropWhile p = [] := by
  have h := dropWhile_append_all l [] hl head_nil
  rwa [List.append_nil] at h

/-- matchNums_digits: the `(\d+):(\d+)(?:-(\d+))?$` tail matcher accepts the
printed digits of ch and v with an optional dash range and recovers the
numbers. -/
theorem matchNums_digits (ch v : Nat) (v2 : Option Nat) :
    matchNums (natDigits ch ++ ':' :: (natDigits v ++
      (match v2 with
       | none => []
       | some w => '-' :: natDigits w))) = some (ch, v, v2) := by
  rcases v2 with _ | w
  · simp only [List.append_nil]
    have h1t := takeWhile_append_all (natDigits ch) (':' :: natDigits v)
      (natDigits_all_digits ch) (head_imp ':' _ (by decide))
    have h1d := dropWhile_append_all (natDigits ch) (':' :: natDigits v)
      (natDigits_all_digits ch) (head_imp ':' _ (by decide))
    simp only [matchNums, h1t, h1d, if_neg (natDigits_ne_nil ch),
      takeWhile_all (natDigits v) (natDigits_all_digits v),
      dropWhile_all (natDigits v) (natDigits_all_digits v),
      if_neg (natDigits_ne_nil v), digitsToNat_natDigits]
  · have h1t := takeWhile_append_all (natDigits ch)
      (':' :: (natDigits v ++ ('-' :: natDigits w)))
      (natDigits_all_digits ch) (head_imp ':' _ (by decide))
    have h1d := dropWhile_append_all (natDigits ch)
      (':' :: (natDigits v ++ ('-' :: natDigits w)))
      (natDigits_all_digits ch) (head_imp ':' _ (by decide))
    have h2t := takeWhile_append_all (natDigits v) ('-' :: natDigits w)
      (natDigits_all_digits v) (head_imp '-' _ (by decide))
    have h2d := dropWhile_append_all (natDigits v) ('-' :: natDigits w)
      (natDigits_all_digits v) (head_imp '-' _ (by decide))
    simp only [matchNums, h1t, h1d, if_neg (natDigits_ne_nil ch), h2t, h2d,
      if_neg (natDigits_ne_nil v),
      takeWhile_all (natDigits w) (natDigits_all_digits w),
      dropWhile_all (natDigits w) (natDigits_all_digits w),
      if_neg (natDigits_ne_nil w), digitsToNat_natDigits]
    simp

/-- head_not_space_of_digits: the head predicate for a remainder starting with
printed digits. -/
theorem head_not_space_of_digits (n : Nat) (r : List Char) :
    ∀ c, (natDigits n ++ r).head? = some c → isSpaceChar c = false := by
  intro c hc
  cases hd : natDigits n with
  | nil => exact absurd hd (natDigits_ne_nil n)
  | cons a l =>
    rw [hd, List.cons_append, List.head?_cons] at hc
    have ha : a = c := Option.some.inj hc
    subst ha
    exact digit_not_space (natDigits_all_digits n a (hd ▸ List.mem_cons_self a l))

/-- matchPat1_digits: pattern 1 accepts "<book> <ch>:<v>[-<w>]" built from any
non-empty book-class word and printed digits, and recovers all parts. -/
theorem matchPat1_digits (bk : List Char) (hne : bk ≠ [])
    (hbk : ∀ c ∈ bk, isBookChar c = true) (ch v : Nat) (v2 : Option Nat) :
    matchPat1 (bk ++ ' ' :: (natDigits ch ++ ':' :: (natDigits v ++
      (match v2 with
       | none => []
       | some w => '-' :: natDigits w)))) = some (bk, ch, v, v2) := by
  have hsp : ∀ r : List Char, (∀ c, r.head? = some c → isSpaceChar c = false) →
      List.takeWhile isSpaceChar (' ' :: r) = [' '] ∧
      List.dropWhile isSpaceChar (' ' :: r) = r := by
    intro r hr
    have h1 := takeWhile_append_all [' '] r
      (by intro c hc; rw [List.mem_singleton] at hc; subst hc; decide) hr
    have h2 := dropWhile_append_all [' '] r
      (by intro c hc; rw [List.mem_singleton] at hc; subst hc; decide) hr
    rw [List.singleton_append] at h1 h2
    exact ⟨h1, h2⟩
  rcases v2 with _ | w
  · show matchPat1 (bk ++ ' ' :: (natDigits ch ++ ':' :: (natDigits v ++ []))) =
      some (bk, ch, v, none)
    rw [List.append_nil]
    have hbt := takeWhile_append_all bk (' ' :: (natDigits ch ++ ':' :: natDigits v))
      hbk (head_imp ' ' _ (by decide))
    have hbd := dropWhile_append_all bk (' ' :: (natDigits ch ++ ':' :: natDigits v))
      hbk (head_imp ' ' _ (by decide))
    obtain ⟨hst, hsd⟩ := hsp (natDigits ch ++ ':' :: natDigits v)
      (head_not_space_of_digits ch _)
    have hmn : matchNums (natDigits ch ++ ':' :: natDigits v) = some (ch, v, none) := by
      have h := matchNums_digits ch v none
      rwa [List.append_nil] at h
    simp only [matchPat1]
    rw [hbt, hbd, if_neg hne, hst, hsd, hmn]
    simp
  · show matchPat1 (bk ++ ' ' :: (natDigits ch ++ ':' ::
        (natDigits v ++ ('-' :: natDigits w)))) = some (bk, ch, v, some w)
    have hbt := takeWhile_append_all bk
      (' ' :: (natDigits ch ++ ':' :: (natDigits v ++ ('-' :: natDigits w))))
      hbk (head_imp ' ' _ (by decide))
    have hbd := dropWhile_append_all bk
      (' ' :: (natDigits ch ++ ':' :: (natDigits v ++ ('-' :: natDigits w))))
      hbk (head_imp ' ' _ (by decide))
    obtain ⟨hst, hsd⟩ := hsp (natDigits ch ++ ':' :: (natDigits v ++ ('-' :: natDigits w)))
      (head_not_space_of_digits ch _)
    have hmn : matchNums (natDigits ch ++ ':' :: (natDigits v ++ ('-' :: natDigits w))) =
        some (ch, v, some w) := matchNums_digits ch v (some w)
    simp only [matchPat1]
    rw [hbt, hbd, if_neg hne, hst, hsd, hmn]
    simp

/-- C6: every input "<Book> <chapter>:<verse>" or
"<Book> <chapter>:<verse>-<verse2>" whose book part is a non-empty word over
the book character class (letters, digits, CJK) parses — with or without a
current book — to a reference carrying that book, chapter and verse range. -/
theorem claim_C6 (bk : List Char) (hne : bk ≠ [])
    (hbk : ∀ c ∈ bk, isBookChar c = true) (ch v : Nat) (v2 : Option Nat)
    (current_book : Option String) :
    parse_verse_reference (String.mk (bk ++ ' ' :: ((Nat.repr ch).data ++ ':' ::
      ((Nat.repr v).data ++
        (match v2 with
         | none => []
         | some w => '-' :: (Nat.repr w).data))))) current_book =
      some ⟨some (String.mk bk), some ch, some v, v2⟩ := by
  rcases v2 with _ | w
  · cases bk with
    | nil => exact absurd rfl hne
    | cons c0 bk0 =>
      simp only [repr_data]
      show parse_verse_reference (String.mk ((c0 :: bk0) ++ ' ' ::
          (natDigits ch ++ ':' :: (natDigits v ++ [])))) current_book =
        some ⟨some (String.mk (c0 :: bk0)), some ch, some v, none⟩
      rw [List.append_nil]
      have hm : matchPat1 ((c0 :: bk0) ++ ' ' :: (natDigits ch ++ ':' :: natDigits v)) =
          some ((c0 :: bk0), ch, v, none) := by
        have h := matchPat1_digits (c0 :: bk0) (List.cons_ne_nil c0 bk0) hbk ch v none
        simp only [] at h
        rwa [List.append_nil] at h
      obtain ⟨cl, hcl, hcld⟩ := natDigits_getLast_ex v
      have hre : (c0 :: bk0) ++ ' ' :: (natDigits ch ++ ':' :: natDigits v) =
          ((c0 :: bk0) ++ ' ' :: (natDigits ch ++ [':'])) ++ natDigits v := by
        simp
      have hlast : ((c0 :: bk0) ++ ' ' ::
          (natDigits ch ++ ':' :: natDigits v)).getLast? = some cl := by
        rw [hre, List.getLast?_append, hcl]
        rfl
      have hstrip : pyStrip ((c0 :: bk0) ++ ' ' :: (natDigits ch ++ ':' :: natDigits v)) =
          (c0 :: bk0) ++ ' ' :: (natDigits ch ++ ':' :: natDigits v) := by
        apply pyStrip_eq_self
        · intro c hc
          rw [List.cons_append, List.head?_cons] at hc
          have h0 : c0 = c := Option.some.inj hc
          subst h0
          exact book_not_space (hbk c0 (List.mem_cons_self _ _))
        · intro c hc
          rw [hlast] at hc
          have h0 : cl = c := Option.some.inj hc
          subst h0
          exact digit_not_space hcld
      have hnil : (c0 :: bk0) ++ ' ' :: (natDigits ch ++ ':' :: natDigits v) ≠ [] := by
        simp
      simp only [parse_verse_reference, hstrip, if_neg hnil, hm]
  · cases bk with
    | nil => exact absurd rfl hne
    | cons c0 bk0 =>
      simp only [repr_data]
      show parse_verse_reference (String.mk ((c0 :: bk0) ++ ' ' ::
          (natDigits ch ++ ':' :: (natDigits v ++ ('-' :: natDigits w)))))
          current_book =
        some ⟨some (String.mk (c0 :: bk0)), some ch, some v, some w⟩
      have hm : matchPat1 ((c0 :: bk0) ++ ' ' ::
          (natDigits ch ++ ':' :: (natDigits v ++ ('-' :: natDigits w)))) =
          some ((c0 :: bk0), ch, v, some w) :=
        matchPat1_digits (c0 :: bk0) (List.cons_ne_nil c0 bk0) hbk ch v (some w)
      obtain ⟨cl, hcl, hcld⟩ := natDigits_getLast_ex w
      have hre : (c0 :: bk0) ++ ' ' ::
            (natDigits ch ++ ':' :: (natDigits v ++ ('-' :: natDigits w))) =
          ((c0 :: bk0) ++ ' ' ::
            (natDigits ch ++ ':' :: (natDigits v ++ ['-']))) ++ natDigits w := by
        simp
      have hlast : ((c0 :: bk0) ++ ' ' ::
          (natDigits ch ++ ':' :: (natDigits v ++ ('-' :: natDigits w)))).getLast? =
          some cl := by
        rw [hre, List.getLast?_append, hcl]
        rfl
      have hstrip : pyStrip ((c0 :: bk0) ++ ' ' ::
          (natDigits ch ++ ':' :: (natDigits v ++ ('-' :: natDigits w)))) =
          (c0 :: bk0) ++ ' ' ::
            (natDigits ch ++ ':' :: (natDigits v ++ ('-' :: natDigits w))) := by
        apply pyStrip_eq_self
        · intro c hc
          rw [List.cons_append, List.head?_cons] at hc
          have h0 : c0 = c := Option.some.inj hc
          subst h0
          exact book_not_space (hbk c0 (List.mem_cons_self _ _))
        · intro c hc
          rw [hlast] at hc
          have h0 : cl = c := Option.some.inj hc
          subst h0
          exact digit_not_space hcld
      have hnil : (c0 :: bk0) ++ ' ' ::
          (natDigits ch ++ ':' :: (natDigits v ++ ('-' :: natDigits w))) ≠ [] := by
        simp
      simp only [parse_verse_reference, hstrip, if_neg hnil, hm]

/-- Witness for C6 on the concrete input "John 3:16" with no current book. -/
theorem claim_C6_witness :
    parse_verse_reference "John 3:16" none =
      some ⟨some "John", some 3, some 16, none⟩ :=
  claim_C6 ['J', 'o', 'h', 'n'] (by decide) (by decide) 3 16 none none
